import Mathlib

/-
Verification of the signal-computation and ranking engine of
src/stock-pipeline-starter/main.py (function compute_signals and the data it
consumes).

Modelling conventions:
* Prices and volumes are exact rationals; a pandas cell is an Option ℚ with
  none standing for NaN / absent.
* A pandas Series with a date index is a list of (date, value) pairs; dates
  are Nat codes, listed in the index order.
* Fallible frame operations (iloc on a too-short series, a missing column
  label, sort_values on a frame lacking the sort columns) return
  Except String, mirroring the exceptions pandas raises.
* sort_values with a list of keys performs a stable lexicographic sort
  (numpy lexsort with per-key factorized codes); any stable sort by the same
  total preorder produces the same list, so it is modelled with
  List.insertionSort, the canonical stable sort, over that preorder.
* The library seals rational arithmetic against unfolding; the attribute
  below restores plain definitional reduction so that concrete runs of the
  embedding can be checked by the kernel.
-/

set_option maxRecDepth 40000

set_option allowUnsafeReducibility true in
attribute [semireducible] Rat.add Rat.mul Rat.inv Rat.sub Rat.ofScientific

/-- Lexicographic comparison of character lists by code point, the order
Python uses on strings (used by the sorted() call on line 47). -/
def lexLe : List Char → List Char → Bool
  | [], _ => true
  | _ :: _, [] => false
  | x :: xs, y :: ys => if x < y then true else if y < x then false else lexLe xs ys

/-- Strict variant of lexLe. -/
def lexLt : List Char → List Char → Bool
  | [], [] => false
  | [], _ :: _ => true
  | _ :: _, [] => false
  | x :: xs, y :: ys => if x < y then true else if y < x then false else lexLt xs ys

/-- Python string comparison (code-point lexicographic), non-strict. -/
def pyStrLe (a b : String) : Bool := lexLe a.data b.data

/-- Python string comparison (code-point lexicographic), strict. -/
def pyStrLt (a b : String) : Bool := lexLt a.data b.data

/-- Propositional form of pyStrLe, used as the sort relation for tickers. -/
def strLe (a b : String) : Prop := pyStrLe a b = true

instance : DecidableRel strLe := fun a b => instDecidableEqBool (pyStrLe a b) true

/-- One column of the multi-ticker frame returned by yf.download with
group_by equal to ticker: the label is the pair (ticker, field) and the
values are aligned with the frame's date index. -/
structure MultiCol where
  tick : String
  field : String
  values : List (Option ℚ)

/-- The fetched dataset handed to compute_signals. Line 44 distinguishes the
two shapes by whether data.columns is a MultiIndex: a multi-ticker frame has
(ticker, field) column labels, a single-ticker frame has plain field columns
of which the code reads only Close and Volume. -/
inductive PriceData where
  | multi (index : List Nat) (cols : List MultiCol)
  | single (index : List Nat) (close : List (Option ℚ)) (volume : List (Option ℚ))

/-- Series.dropna: keep the (date, value) pairs whose cell holds a number
(lines 49-53 apply it to the Close and Volume columns separately). -/
def dropna (index : List Nat) (vals : List (Option ℚ)) : List (Nat × ℚ) :=
  (index.zip vals).filterMap fun p => p.2.map fun v => (p.1, v)

/-- Column selection data[(t, f)] on a multi-ticker frame; pandas raises
KeyError when no column carries that label. -/
def colValues (cols : List MultiCol) (t f : String) : Except String (List (Option ℚ)) :=
  match cols.find? fun c => c.tick == t && c.field == f with
  | some c => .ok c.values
  | none => .error "KeyError"

/-- Line 45: the universe is the list of tickers owning a Close column in
the multi shape, and the placeholder list with the single entry SINGLE
otherwise. -/
def tickerList : PriceData → List String
  | .multi _ cols => cols.filterMap fun c => if c.field == "Close" then some c.tick else none
  | .single _ _ _ => ["SINGLE"]

/-- Line 47: sorted(set(universe)) — the distinct tickers in ascending
code-point order. -/
def sortedTickers (d : PriceData) : List String :=
  List.insertionSort strLe (tickerList d).dedup

/-- Series.rolling(w).mean() with the default min_periods: position i holds
the mean of entries i-w+1 … i once w entries exist and NaN before that
(lines 58-62). -/
def rollingMean (w : Nat) (xs : List ℚ) : List (Option ℚ) :=
  (List.range xs.length).map fun i =>
    if w ≤ i + 1 then some (((xs.take (i + 1)).drop (i + 1 - w)).sum / (w : ℚ)) else none

/-- Series.iloc with a negative position: ilocNeg xs k is iloc[-(k+1)],
raising IndexError when the series is shorter than k+1. -/
def ilocNeg (xs : List α) (k : Nat) : Except String α :=
  if h : k < xs.length then .ok (xs.get ⟨xs.length - 1 - k, by omega⟩)
  else .error "IndexError"

/-- Numeric comparison with NaN propagation: a NaN on either side makes the
comparison false, as in numpy (used on line 67). -/
def nanLt (a b : Option ℚ) : Bool :=
  match a, b with
  | some x, some y => decide (x < y)
  | _, _ => false

/-- Non-strict variant of nanLt: false when either side is NaN. -/
def nanLe (a b : Option ℚ) : Bool :=
  match a, b with
  | some x, some y => decide (x ≤ y)
  | _, _ => false

/-- Round to the nearest integer, ties to even, the policy of Python's
round builtin. -/
def halfEven (x : ℚ) : ℤ :=
  if x - (⌊x⌋ : ℚ) < 1 / 2 then ⌊x⌋
  else if (1 : ℚ) / 2 < x - (⌊x⌋ : ℚ) then ⌊x⌋ + 1
  else if ⌊x⌋ % 2 = 0 then ⌊x⌋ else ⌊x⌋ + 1

/-- Python's round(x, digits) on exact rationals. -/
def pyRound (digits : Nat) (x : ℚ) : ℚ :=
  (halfEven (x * 10 ^ digits) : ℚ) / 10 ^ digits

/-- One output row assembled on lines 71-79. d_change_pct and above_ma60_pct
are Option ℚ because the script stores None when the underlying quantity is
NaN. -/
structure SignalRecord where
  ticker : String
  date : Nat
  price : ℚ
  d_change_pct : Option ℚ
  golden_cross_5_20 : Bool
  vol_spike_vs_20d : Bool
  above_ma60_pct : Option ℚ
deriving DecidableEq, Repr

/-- Lines 58-79 for one ticker, given its cleaned close and volume series:
the windowed statistics, the scalar signals and the assembled row, with each
iloc access fallible exactly where the script's is. -/
def computeRow (t : String) (close vol : List (Nat × ℚ)) : Except String SignalRecord := do
  let closes := close.map Prod.snd
  let vols := vol.map Prod.snd
  let ma5 := rollingMean 5 closes
  let ma20 := rollingMean 20 closes
  let ma60 := rollingMean 60 closes
  let vol20 := rollingMean 20 vols
  let last_date ← ilocNeg (close.map Prod.fst) 0
  let today_px ← ilocNeg closes 0
  let dchg : Option ℚ ←
    if 1 < closes.length then do
      let c0 ← ilocNeg closes 0
      let c1 ← ilocNeg closes 1
      pure (some ((c0 / c1 - 1) * 100))
    else pure none
  let m5b ← ilocNeg ma5 1
  let m20b ← ilocNeg ma20 1
  let m5a ← ilocNeg ma5 0
  let m20a ← ilocNeg ma20 0
  let ma_cross := nanLt m5b m20b && nanLt m20a m5a
  let v20 ← ilocNeg vol20 0
  let vol_spike ←
    match v20 with
    | none => pure false
    | some av => do
        let v0 ← ilocNeg vols 0
        pure (decide (3 / 2 * av < v0))
  let m60 ← ilocNeg ma60 0
  let trend60 : Option ℚ := m60.map fun m => (today_px / m - 1) * 100
  pure ⟨t, last_date, pyRound 4 today_px, dchg.map (pyRound 2), ma_cross, vol_spike,
        trend60.map (pyRound 2)⟩

/-- Lines 48-53: extract and clean the close and volume series of one ticker
for either frame shape. Each column is cleaned by its own dropna call. -/
def prepSeries (d : PriceData) (t : String) :
    Except String (List (Nat × ℚ) × List (Nat × ℚ)) :=
  match d with
  | .multi idx cols => do
      let c ← colValues cols t "Close"
      let v ← colValues cols t "Volume"
      pure (dropna idx c, dropna idx v)
  | .single idx c v => pure (dropna idx c, dropna idx v)

/-- Lines 48-79 for one ticker: none when the ticker is skipped by the
50-bar filter on lines 55-56, some row otherwise. -/
def rowFor (d : PriceData) (t : String) : Except String (Option SignalRecord) := do
  let s ← prepSeries d t
  if s.1.length < 50 then pure none
  else do
    let r ← computeRow t s.1 s.2
    pure (some r)

/-- The loop of lines 47-79: process the tickers in order, collecting the
emitted rows. -/
def buildRows (d : PriceData) : List String → Except String (List SignalRecord)
  | [] => .ok []
  | t :: ts => do
      let r ← rowFor d t
      let rest ← buildRows d ts
      pure (r.toList ++ rest)

/-- The composite sort key of line 81 as one lexicographically ordered
value. All four keys are descending, so a record sorts before another
exactly when its key is the larger one; an absent percentage is NaN, which
pandas places after every number within the key's tier, hence the bottom
element. -/
def rankKey (r : SignalRecord) : Bool ×ₗ (Bool ×ₗ ((WithBot ℚ) ×ₗ (WithBot ℚ))) :=
  toLex (r.golden_cross_5_20,
    toLex (r.vol_spike_vs_20d,
      toLex (r.above_ma60_pct.elim ⊥ (fun q => (q : WithBot ℚ)),
             r.d_change_pct.elim ⊥ (fun q => (q : WithBot ℚ)))))

/-- The row order produced by the sort_values call on line 81: a precedes b
when a's composite key is at least b's. -/
def rankBefore (a b : SignalRecord) : Prop := rankKey b ≤ rankKey a

instance : DecidableRel rankBefore :=
  fun a b => inferInstanceAs (Decidable (rankKey b ≤ rankKey a))

instance : IsTotal SignalRecord rankBefore :=
  ⟨fun a b => (le_total (rankKey b) (rankKey a)).imp id id⟩

instance : IsTrans SignalRecord rankBefore :=
  ⟨fun _ _ _ hab hbc => le_trans hbc hab⟩

/-- Lines 41-82, the whole of compute_signals: prepare and filter each
ticker, compute its row, and sort the rows. pd.DataFrame applied to an
empty row list yields a frame with no columns at all, on which the
sort_values call of line 81 raises KeyError for its first sort key; with at
least one row every column exists and the stable multi-key sort runs. -/
def computeSignals (d : PriceData) : Except String (List SignalRecord) := do
  let rows ← buildRows d (sortedTickers d)
  if rows.isEmpty then .error "KeyError: golden_cross_5_20"
  else pure (rows.insertionSort rankBefore)

deriving instance DecidableEq for Except

/-- Value at iloc[-(k+1)] of a numeric series, with a default of 0 for the
out-of-range case (used only where the script's access is known to be in
range). -/
def endD (xs : List ℚ) (k : Nat) : ℚ := xs.getD (xs.length - 1 - k) 0

/-- The w-bar rolling mean at iloc[-(k+1)]: defined (some) once at least w
entries precede that position inclusively, NaN (none) otherwise. -/
def maAt (w : Nat) (xs : List ℚ) (k : Nat) : Option ℚ :=
  (rollingMean w xs).getD (xs.length - 1 - k) none

/-- The row computeRow produces when every iloc access is in range, written
as a total function of the cleaned series (established by computeRow_eval
below). -/
def recordSpec (t : String) (close vol : List (Nat × ℚ)) : SignalRecord :=
  let closes := close.map Prod.snd
  let vols := vol.map Prod.snd
  ⟨t,
   (close.map Prod.fst).getD (close.length - 1) 0,
   pyRound 4 (endD closes 0),
   (if 1 < closes.length then some ((endD closes 0 / endD closes 1 - 1) * 100)
    else none).map (pyRound 2),
   nanLt (maAt 5 closes 1) (maAt 20 closes 1) && nanLt (maAt 20 closes 0) (maAt 5 closes 0),
   (match maAt 20 vols 0 with
    | none => false
    | some av => decide (3 / 2 * av < endD vols 0)),
   ((maAt 60 closes 0).map fun m => (endD closes 0 / m - 1) * 100).map (pyRound 2)⟩

/-- A SignalRecord with its ticker field forgotten, for comparing the rows
the two input shapes produce. -/
def sansTicker (r : SignalRecord) : Nat × ℚ × Option ℚ × Bool × Bool × Option ℚ :=
  (r.date, r.price, r.d_change_pct, r.golden_cross_5_20, r.vol_spike_vs_20d, r.above_ma60_pct)

/-- Close column of a 50-bar series whose 5-bar mean is strictly below the
20-bar mean at the second-to-last position and exactly equal to it at the
last position: all bars are 10 except bar 44 (value 4) and bar 49 (value
8), giving ma5 values 44/5 then 48/5 and ma20 values 97/10 then 48/5. -/
def exCloseA : List (Option ℚ) :=
  (List.range 50).map fun i => if i = 44 then some 4 else if i = 49 then some 8 else some 10

/-- A constant volume column of 50 bars. -/
def exVolA : List (Option ℚ) := (List.range 50).map fun _ => some 100

/-- One-ticker multi-shape frame carrying the boundary golden-cross series. -/
def exFrame1 : PriceData :=
  .multi (List.range 50) [⟨"A", "Close", exCloseA⟩, ⟨"A", "Volume", exVolA⟩]

/-- The cleaned close values of ticker A in exFrame1. -/
def exCloses1 : List ℚ := (dropna (List.range 50) exCloseA).map Prod.snd

/-- The single row exFrame1 produces (checked by kernel evaluation in the
theorems below). -/
def exRec1 : SignalRecord := ⟨"A", 49, 8, some (-20), false, false, none⟩

/-- A frame whose only ticker has three bars, so every ticker is filtered
out and the row list handed to the ranking step is empty. -/
def exFrame5 : PriceData :=
  .multi [0, 1, 2]
    [⟨"A", "Close", [some 1, some 2, some 3]⟩, ⟨"A", "Volume", [some 1, some 1, some 1]⟩]

/-- Volume column of 50 bars whose last cell is missing while every close
cell is present: the two dropna calls then clean to different date sets. -/
def exVolGap : List (Option ℚ) :=
  (List.range 50).map fun i => if i = 49 then none else some 100

/-- A constant close column of 50 bars. -/
def exCloseFlat : List (Option ℚ) := (List.range 50).map fun _ => some 10

/-- Frame for the independent-cleaning counterexample: close complete,
volume missing on the last date. -/
def exFrame6 : PriceData :=
  .multi (List.range 50) [⟨"A", "Close", exCloseFlat⟩, ⟨"A", "Volume", exVolGap⟩]

/-- Close column of 49 present bars: the last cell is missing, so the
cleaned series is one bar short of the 50-bar threshold. -/
def exCloseShort : List (Option ℚ) :=
  (List.range 50).map fun i => if i = 49 then none else some 10

/-- Frame with a qualifying ticker A (50 cleaned bars) and a filtered
ticker B (49 cleaned bars). -/
def exFrame4 : PriceData :=
  .multi (List.range 50)
    [⟨"A", "Close", exCloseA⟩, ⟨"A", "Volume", exVolA⟩,
     ⟨"B", "Close", exCloseShort⟩, ⟨"B", "Volume", exVolA⟩]

/-- Multi-shape frame holding one ticker named AAPL with a flat series. -/
def exFrame8m : PriceData :=
  .multi (List.range 50) [⟨"AAPL", "Close", exCloseFlat⟩, ⟨"AAPL", "Volume", exVolA⟩]

/-- Single-shape frame holding the same underlying series as exFrame8m. -/
def exFrame8s : PriceData := .single (List.range 50) exCloseFlat exVolA

/-- The row exFrame8m produces. -/
def exRec8m : SignalRecord := ⟨"AAPL", 49, 10, some 0, false, false, none⟩

/-- The row exFrame8s produces: same signal content under the placeholder
ticker. -/
def exRec8s : SignalRecord := ⟨"SINGLE", 49, 10, some 0, false, false, none⟩

/-- The row exFrame6 produces. -/
def exRec6 : SignalRecord := ⟨"A", 49, 10, some 0, false, false, none⟩

/-! ### Evaluation lemmas for the per-ticker computation -/

theorem exc_ok_bind {ε α β : Type} (a : α) (f : α → Except ε β) :
    (Except.ok a >>= f) = f a := rfl

theorem exc_error_bind {ε α β : Type} (e : ε) (f : α → Except ε β) :
    ((Except.error e : Except ε α) >>= f) = Except.error e := rfl

theorem exc_pure {ε α : Type} (a : α) : (pure a : Except ε α) = Except.ok a := rfl

theorem rollingMean_length (w : Nat) (xs : List ℚ) :
    (rollingMean w xs).length = xs.length := by
  simp [rollingMean]

theorem ilocNeg_err {α : Type} (xs : List α) (k : Nat) (h : xs.length ≤ k) :
    ilocNeg xs k = .error "IndexError" := by
  unfold ilocNeg
  rw [dif_neg (by omega)]

theorem ilocNeg_eq_endD (xs : List ℚ) (k : Nat) (h : k < xs.length) :
    ilocNeg xs k = .ok (endD xs k) := by
  unfold ilocNeg endD
  rw [dif_pos h, List.getD_eq_getElem xs 0 (by omega)]
  simp

theorem ilocNeg_eq_maAt (w : Nat) (xs : List ℚ) (k : Nat) (h : k < xs.length) :
    ilocNeg (rollingMean w xs) k = .ok (maAt w xs k) := by
  unfold ilocNeg maAt
  rw [dif_pos (by rw [rollingMean_length]; omega),
      List.getD_eq_getElem (rollingMean w xs) none (by rw [rollingMean_length]; omega)]
  simp [rollingMean_length]

theorem ilocNeg_nat (xs : List Nat) (k : Nat) (h : k < xs.length) :
    ilocNeg xs k = .ok (xs.getD (xs.length - 1 - k) 0) := by
  unfold ilocNeg
  rw [dif_pos h, List.getD_eq_getElem xs 0 (by omega)]
  simp

theorem computeRow_eval (t : String) (close vol : List (Nat × ℚ))
    (hc : 2 ≤ close.length) (hv : 1 ≤ vol.length) :
    computeRow t close vol = .ok (recordSpec t close vol) := by
  have e1 : ilocNeg (close.map Prod.fst) 0 = .ok ((close.map Prod.fst).getD (close.length - 1) 0) := by
    rw [ilocNeg_nat _ _ (by simp; omega)]
    simp
  have e2 : ilocNeg (close.map Prod.snd) 0 = .ok (endD (close.map Prod.snd) 0) :=
    ilocNeg_eq_endD _ _ (by simp; omega)
  have e3 : ilocNeg (close.map Prod.snd) 1 = .ok (endD (close.map Prod.snd) 1) :=
    ilocNeg_eq_endD _ _ (by simp; omega)
  have e4 : ilocNeg (rollingMean 5 (close.map Prod.snd)) 1 = .ok (maAt 5 (close.map Prod.snd) 1) :=
    ilocNeg_eq_maAt _ _ _ (by simp; omega)
  have e5 : ilocNeg (rollingMean 20 (close.map Prod.snd)) 1 = .ok (maAt 20 (close.map Prod.snd) 1) :=
    ilocNeg_eq_maAt _ _ _ (by simp; omega)
  have e6 : ilocNeg (rollingMean 5 (close.map Prod.snd)) 0 = .ok (maAt 5 (close.map Prod.snd) 0) :=
    ilocNeg_eq_maAt _ _ _ (by simp; omega)
  have e7 : ilocNeg (rollingMean 20 (close.map Prod.snd)) 0 = .ok (maAt 20 (close.map Prod.snd) 0) :=
    ilocNeg_eq_maAt _ _ _ (by simp; omega)
  have e8 : ilocNeg (rollingMean 20 (vol.map Prod.snd)) 0 = .ok (maAt 20 (vol.map Prod.snd) 0) :=
    ilocNeg_eq_maAt _ _ _ (by simp; omega)
  have e9 : ilocNeg (vol.map Prod.snd) 0 = .ok (endD (vol.map Prod.snd) 0) :=
    ilocNeg_eq_endD _ _ (by simp; omega)
  have e10 : ilocNeg (rollingMean 60 (close.map Prod.snd)) 0 = .ok (maAt 60 (close.map Prod.snd) 0) :=
    ilocNeg_eq_maAt _ _ _ (by simp; omega)
  have hif : 1 < (close.map Prod.snd).length := by simp; omega
  rcases hm : maAt 20 (vol.map Prod.snd) 0 with _ | av <;>
    simp only [computeRow, recordSpec, e1, e2, e3, e4, e5, e6, e7, e8, e9, e10, hm, hif,
      exc_ok_bind, exc_pure, if_true, Option.map_map, Option.map_some, Option.map_none]

theorem computeRow_err_nil (t : String) (vol : List (Nat × ℚ)) :
    computeRow t [] vol = .error "IndexError" := by
  have e : ilocNeg (([] : List (Nat × ℚ)).map Prod.fst) 0 = .error "IndexError" :=
    ilocNeg_err _ _ (by simp)
  simp only [computeRow, e, exc_error_bind]

theorem computeRow_err_one (t : String) (close vol : List (Nat × ℚ))
    (h : close.length = 1) : computeRow t close vol = .error "IndexError" := by
  have e1 : ilocNeg (close.map Prod.fst) 0 = .ok ((close.map Prod.fst).getD (close.length - 1) 0) := by
    rw [ilocNeg_nat _ _ (by simp only [List.length_map]; omega)]
    simp
  have e2 : ilocNeg (close.map Prod.snd) 0 = .ok (endD (close.map Prod.snd) 0) :=
    ilocNeg_eq_endD _ _ (by simp only [List.length_map]; omega)
  have hif : ¬ (1 < (close.map Prod.snd).length) := by simp only [List.length_map]; omega
  have e4 : ilocNeg (rollingMean 5 (close.map Prod.snd)) 1 = .error "IndexError" :=
    ilocNeg_err _ _ (by rw [rollingMean_length]; simp only [List.length_map]; omega)
  simp only [computeRow, e1, e2, hif, if_false, e4, exc_ok_bind, exc_pure, exc_error_bind]

theorem computeRow_err_vol (t : String) (close vol : List (Nat × ℚ))
    (hc : 2 ≤ close.length) (hv : vol.length = 0) :
    computeRow t close vol = .error "IndexError" := by
  have e1 : ilocNeg (close.map Prod.fst) 0 = .ok ((close.map Prod.fst).getD (close.length - 1) 0) := by
    rw [ilocNeg_nat _ _ (by simp only [List.length_map]; omega)]
    simp
  have e2 : ilocNeg (close.map Prod.snd) 0 = .ok (endD (close.map Prod.snd) 0) :=
    ilocNeg_eq_endD _ _ (by simp only [List.length_map]; omega)
  have e3 : ilocNeg (close.map Prod.snd) 1 = .ok (endD (close.map Prod.snd) 1) :=
    ilocNeg_eq_endD _ _ (by simp only [List.length_map]; omega)
  have e4 : ilocNeg (rollingMean 5 (close.map Prod.snd)) 1 = .ok (maAt 5 (close.map Prod.snd) 1) :=
    ilocNeg_eq_maAt _ _ _ (by simp only [List.length_map]; omega)
  have e5 : ilocNeg (rollingMean 20 (close.map Prod.snd)) 1 = .ok (maAt 20 (close.map Prod.snd) 1) :=
    ilocNeg_eq_maAt _ _ _ (by simp only [List.length_map]; omega)
  have e6 : ilocNeg (rollingMean 5 (close.map Prod.snd)) 0 = .ok (maAt 5 (close.map Prod.snd) 0) :=
    ilocNeg_eq_maAt _ _ _ (by simp only [List.length_map]; omega)
  have e7 : ilocNeg (rollingMean 20 (close.map Prod.snd)) 0 = .ok (maAt 20 (close.map Prod.snd) 0) :=
    ilocNeg_eq_maAt _ _ _ (by simp only [List.length_map]; omega)
  have e8 : ilocNeg (rollingMean 20 (vol.map Prod.snd)) 0 = .error "IndexError" :=
    ilocNeg_err _ _ (by rw [rollingMean_length]; simp only [List.length_map]; omega)
  have hif : 1 < (close.map Prod.snd).length := by simp only [List.length_map]; omega
  simp only [computeRow, e1, e2, e3, e4, e5, e6, e7, e8, hif, if_true,
    exc_ok_bind, exc_pure, exc_error_bind]

theorem computeRow_ok {t : String} {close vol : List (Nat × ℚ)} {r : SignalRecord}
    (h : computeRow t close vol = .ok r) :
    2 ≤ close.length ∧ 1 ≤ vol.length ∧ r = recordSpec t close vol := by
  have hc : 2 ≤ close.length := by
    by_contra hlt
    have h01 : close.length = 0 ∨ close.length = 1 := by omega
    rcases h01 with h0 | h1
    · rw [List.length_eq_zero.mp h0, computeRow_err_nil] at h
      exact absurd h (by simp)
    · rw [computeRow_err_one t close vol h1] at h
      exact absurd h (by simp)
  have hv : 1 ≤ vol.length := by
    by_contra hlt
    rw [computeRow_err_vol t close vol hc (by omega)] at h
    exact absurd h (by simp)
  rw [computeRow_eval t close vol hc hv] at h
  exact ⟨hc, hv, (Except.ok.injEq _ _ |>.mp h).symm⟩

theorem recordSpec_ticker (t : String) (close vol : List (Nat × ℚ)) :
    (recordSpec t close vol).ticker = t := rfl

/-! ### Lemmas about rowFor and buildRows -/

theorem rowFor_none {d : PriceData} {t : String} {s : List (Nat × ℚ) × List (Nat × ℚ)}
    (hp : prepSeries d t = .ok s) (hlen : s.1.length < 50) :
    rowFor d t = .ok none := by
  simp only [rowFor, hp, exc_ok_bind, if_pos hlen, exc_pure]

theorem rowFor_some {d : PriceData} {t : String} {s : List (Nat × ℚ) × List (Nat × ℚ)}
    (hp : prepSeries d t = .ok s) (hlen : 50 ≤ s.1.length) (hv : 1 ≤ s.2.length) :
    rowFor d t = .ok (some (recordSpec t s.1 s.2)) := by
  simp only [rowFor, hp, exc_ok_bind, if_neg (by omega : ¬ s.1.length < 50),
    computeRow_eval t s.1 s.2 (by omega) hv, exc_pure]

theorem rowFor_ok_inv {d : PriceData} {t : String} {o : Option SignalRecord}
    (h : rowFor d t = .ok o) :
    ∃ s, prepSeries d t = .ok s ∧
      ((s.1.length < 50 ∧ o = none) ∨
       (50 ≤ s.1.length ∧ ∃ r, o = some r ∧ computeRow t s.1 s.2 = .ok r)) := by
  unfold rowFor at h
  cases hp : prepSeries d t with
  | error e => rw [hp, exc_error_bind] at h; exact absurd h (by simp)
  | ok s =>
    rw [hp, exc_ok_bind] at h
    refine ⟨s, rfl, ?_⟩
    by_cases hl : s.1.length < 50
    · rw [if_pos hl] at h
      exact Or.inl ⟨hl, ((Except.ok.injEq _ _).mp h).symm⟩
    · rw [if_neg hl] at h
      cases hcr : computeRow t s.1 s.2 with
      | error e => rw [hcr, exc_error_bind] at h; exact absurd h (by simp)
      | ok r =>
        rw [hcr, exc_ok_bind] at h
        exact Or.inr ⟨by omega, r, ((Except.ok.injEq _ _).mp h).symm, rfl⟩

theorem rowFor_ticker {d : PriceData} {t : String} {r : SignalRecord}
    (h : rowFor d t = .ok (some r)) : r.ticker = t := by
  rcases rowFor_ok_inv h with ⟨s, _, hcase⟩
  rcases hcase with ⟨_, hnone⟩ | ⟨_, r', hr', hcr⟩
  · exact absurd hnone (by simp)
  · obtain ⟨_, _, hrec⟩ := computeRow_ok hcr
    have hx : r = r' := by simpa using hr'
    rw [hx, hrec, recordSpec_ticker]

theorem buildRows_mem {d : PriceData} {ts : List String} {rows : List SignalRecord}
    (h : buildRows d ts = .ok rows) (r : SignalRecord) :
    r ∈ rows ↔ ∃ t ∈ ts, rowFor d t = .ok (some r) := by
  induction ts generalizing rows with
  | nil =>
    simp only [buildRows] at h
    simp [← (Except.ok.injEq _ _).mp h]
  | cons t ts ih =>
    simp only [buildRows] at h
    cases ho : rowFor d t with
    | error e => rw [ho, exc_error_bind] at h; exact absurd h (by simp)
    | ok o =>
      rw [ho, exc_ok_bind] at h
      cases hrest : buildRows d ts with
      | error e => rw [hrest, exc_error_bind] at h; exact absurd h (by simp)
      | ok rest =>
        rw [hrest, exc_ok_bind, exc_pure] at h
        have hrows : rows = o.toList ++ rest := ((Except.ok.injEq _ _).mp h).symm
        subst hrows
        constructor
        · intro hmem
          rcases List.mem_append.mp hmem with hmem | hmem
          · cases o with
            | none => simp at hmem
            | some r' =>
              have hx : r = r' := by simpa using hmem
              exact ⟨t, by simp, by rw [hx]; exact ho⟩
          · rcases (ih hrest).mp hmem with ⟨t', ht', hrow⟩
            exact ⟨t', by simp [ht'], hrow⟩
        · rintro ⟨t', ht', hrow⟩
          rcases List.mem_cons.mp ht' with rfl | ht'
          · rw [ho] at hrow
            have : o = some r := (Except.ok.injEq _ _).mp hrow
            subst this
            simp
          · exact List.mem_append.mpr (Or.inr ((ih hrest).mpr ⟨t', ht', hrow⟩))

theorem buildRows_tickers_sublist {d : PriceData} {ts : List String} {rows : List SignalRecord}
    (h : buildRows d ts = .ok rows) : (rows.map SignalRecord.ticker).Sublist ts := by
  induction ts generalizing rows with
  | nil =>
    simp only [buildRows] at h
    simp [← (Except.ok.injEq _ _).mp h]
  | cons t ts ih =>
    simp only [buildRows] at h
    cases ho : rowFor d t with
    | error e => rw [ho, exc_error_bind] at h; exact absurd h (by simp)
    | ok o =>
      rw [ho, exc_ok_bind] at h
      cases hrest : buildRows d ts with
      | error e => rw [hrest, exc_error_bind] at h; exact absurd h (by simp)
      | ok rest =>
        rw [hrest, exc_ok_bind, exc_pure] at h
        have hrows : rows = o.toList ++ rest := ((Except.ok.injEq _ _).mp h).symm
        subst hrows
        cases o with
        | none => exact (ih hrest).cons t
        | some r =>
          have : r.ticker = t := rowFor_ticker (by rw [ho])
          simpa [this] using (ih hrest).cons₂ t

theorem buildRows_ok_of_mem {d : PriceData} {ts : List String} {rows : List SignalRecord}
    (h : buildRows d ts = .ok rows) {t : String} (ht : t ∈ ts) :
    ∃ o, rowFor d t = .ok o ∧ ∀ r, o = some r → r ∈ rows := by
  induction ts generalizing rows with
  | nil => simp at ht
  | cons t' ts ih =>
    simp only [buildRows] at h
    cases ho : rowFor d t' with
    | error e => rw [ho, exc_error_bind] at h; exact absurd h (by simp)
    | ok o =>
      rw [ho, exc_ok_bind] at h
      cases hrest : buildRows d ts with
      | error e => rw [hrest, exc_error_bind] at h; exact absurd h (by simp)
      | ok rest =>
        rw [hrest, exc_ok_bind, exc_pure] at h
        have hrows : rows = o.toList ++ rest := ((Except.ok.injEq _ _).mp h).symm
        subst hrows
        rcases List.mem_cons.mp ht with rfl | ht'
        · exact ⟨o, ho, fun r hro => by subst hro; simp⟩
        · rcases ih hrest ht' with ⟨o', ho', hmem⟩
          exact ⟨o', ho', fun r hro => List.mem_append.mpr (Or.inr (hmem r hro))⟩

/-! ### Inversion of computeSignals -/

theorem computeSignals_ok {d : PriceData} {out : List SignalRecord}
    (h : computeSignals d = .ok out) :
    ∃ rows, buildRows d (sortedTickers d) = .ok rows ∧ rows ≠ [] ∧
      out = rows.insertionSort rankBefore := by
  unfold computeSignals at h
  cases hb : buildRows d (sortedTickers d) with
  | error e => rw [hb, exc_error_bind] at h; exact absurd h (by simp)
  | ok rows =>
    rw [hb, exc_ok_bind] at h
    by_cases he : rows.isEmpty
    · rw [if_pos he] at h; exact absurd h (by simp)
    · rw [if_neg he, exc_pure] at h
      exact ⟨rows, rfl, by simpa using he, ((Except.ok.injEq _ _).mp h).symm⟩

/-! ### The Python string order -/

theorem lexLe_total (a b : List Char) : lexLe a b = true ∨ lexLe b a = true := by
  induction a generalizing b with
  | nil => left; simp [lexLe]
  | cons x xs ih =>
    cases b with
    | nil => right; simp [lexLe]
    | cons y ys =>
      rcases lt_trichotomy x y with hxy | hxy | hxy
      · left; simp [lexLe, hxy]
      · subst hxy
        rcases ih ys with h | h
        · left; simpa [lexLe] using h
        · right; simpa [lexLe] using h
      · right; simp [lexLe, hxy]

theorem lexLe_trans {a b c : List Char} (hab : lexLe a b = true) (hbc : lexLe b c = true) :
    lexLe a c = true := by
  induction a generalizing b c with
  | nil => simp [lexLe]
  | cons x xs ih =>
    cases b with
    | nil => simp [lexLe] at hab
    | cons y ys =>
      cases c with
      | nil => simp [lexLe] at hbc
      | cons z zs =>
        simp only [lexLe] at hab hbc ⊢
        rcases lt_trichotomy x y with hxy | hxy | hxy
        · rcases lt_trichotomy y z with hyz | hyz | hyz
          · simp [lt_trans hxy hyz]
          · subst hyz; simp [hxy]
          · rw [if_neg (lt_asymm hyz), if_pos hyz] at hbc; exact absurd hbc (by simp)
        · subst hxy
          rcases lt_trichotomy x z with hyz | hyz | hyz
          · simp [hyz]
          · subst hyz
            rw [if_neg (lt_irrefl x), if_neg (lt_irrefl x)] at hab hbc ⊢
            exact ih hab hbc
          · rw [if_neg (lt_asymm hyz), if_pos hyz] at hbc; exact absurd hbc (by simp)
        · rw [if_neg (lt_asymm hxy), if_pos hxy] at hab; exact absurd hab (by simp)

theorem lexLe_antisymm {a b : List Char} (hab : lexLe a b = true) (hba : lexLe b a = true) :
    a = b := by
  induction a generalizing b with
  | nil =>
    cases b with
    | nil => rfl
    | cons y ys => simp [lexLe] at hba
  | cons x xs ih =>
    cases b with
    | nil => simp [lexLe] at hab
    | cons y ys =>
      simp only [lexLe] at hab hba
      rcases lt_trichotomy x y with hxy | hxy | hxy
      · rw [if_neg (lt_asymm hxy), if_pos hxy] at hba; exact absurd hba (by simp)
      · subst hxy
        rw [if_neg (lt_irrefl x), if_neg (lt_irrefl x)] at hab hba
        rw [ih hab hba]
      · rw [if_neg (lt_asymm hxy), if_pos hxy] at hab; exact absurd hab (by simp)

theorem lexLe_ne_imp_lt {a b : List Char} (hab : lexLe a b = true) (hne : a ≠ b) :
    lexLt a b = true := by
  induction a generalizing b with
  | nil =>
    cases b with
    | nil => exact absurd rfl hne
    | cons y ys => simp [lexLt]
  | cons x xs ih =>
    cases b with
    | nil => simp [lexLe] at hab
    | cons y ys =>
      simp only [lexLe] at hab
      simp only [lexLt]
      rcases lt_trichotomy x y with hxy | hxy | hxy
      · simp [hxy]
      · subst hxy
        rw [if_neg (lt_irrefl x), if_neg (lt_irrefl x)] at hab ⊢
        exact ih hab (by intro hx; exact hne (by rw [hx]))
      · rw [if_neg (lt_asymm hxy), if_pos hxy] at hab; exact absurd hab (by simp)

theorem lexLt_irrefl (a : List Char) : lexLt a a = false := by
  induction a with
  | nil => rfl
  | cons x xs ih => simpa [lexLt] using ih

theorem pyStrLt_ne {a b : String} (h : pyStrLt a b = true) : a ≠ b := by
  intro hab
  subst hab
  rw [pyStrLt, lexLt_irrefl] at h
  exact absurd h (by simp)

instance : IsTotal String strLe :=
  ⟨fun a b => lexLe_total a.data b.data⟩

instance : IsTrans String strLe :=
  ⟨fun _ _ _ hab hbc => lexLe_trans hab hbc⟩

theorem strLe_ne_imp_strLt {a b : String} (hab : strLe a b) (hne : a ≠ b) :
    pyStrLt a b = true := by
  refine lexLe_ne_imp_lt hab ?_
  intro hdata
  apply hne
  cases a
  cases b
  exact congrArg String.mk hdata

/-! ### Order facts about the processed ticker list and the row list -/

theorem sortedTickers_pairwise (d : PriceData) :
    (sortedTickers d).Pairwise fun a b => pyStrLt a b = true := by
  have hs : (sortedTickers d).Pairwise strLe :=
    List.sorted_insertionSort strLe (tickerList d).dedup
  have hn : (sortedTickers d).Nodup :=
    (List.perm_insertionSort strLe (tickerList d).dedup).nodup_iff.mpr
      (List.nodup_dedup (tickerList d))
  exact (hs.and hn).imp fun hab => strLe_ne_imp_strLt hab.1 hab.2

theorem rows_pairwise_tickers {d : PriceData} {rows : List SignalRecord}
    (h : buildRows d (sortedTickers d) = .ok rows) :
    rows.Pairwise fun a b => pyStrLt a.ticker b.ticker = true := by
  have hsub := buildRows_tickers_sublist h
  exact List.pairwise_map.mp (List.Pairwise.sublist hsub (sortedTickers_pairwise d))

theorem rows_nodup {d : PriceData} {rows : List SignalRecord}
    (h : buildRows d (sortedTickers d) = .ok rows) : rows.Nodup := by
  refine (rows_pairwise_tickers h).imp ?_
  intro a b hlt hab
  exact pyStrLt_ne hlt (by rw [hab])

/-! ### Stability helpers -/

theorem pair_sublist_of_mem {α : Type} {l : List α} {a b : α}
    (ha : a ∈ l) (hb : b ∈ l) (hne : a ≠ b) :
    ([a, b]).Sublist l ∨ ([b, a]).Sublist l := by
  induction l with
  | nil => simp at ha
  | cons x xs ih =>
    rcases List.mem_cons.mp ha with rfl | ha'
    · have hb' : b ∈ xs := by
        rcases List.mem_cons.mp hb with rfl | hb'
        · exact absurd rfl hne
        · exact hb'
      exact Or.inl ((List.singleton_sublist.mpr hb').cons₂ a)
    · rcases List.mem_cons.mp hb with rfl | hb'
      · exact Or.inr ((List.singleton_sublist.mpr ha').cons₂ b)
      · exact (ih ha' hb').imp (fun h => h.cons x) (fun h => h.cons x)

theorem nodup_pair_sublist {α : Type} {l : List α} {a b : α}
    (hn : l.Nodup) (h1 : ([a, b]).Sublist l) (h2 : ([b, a]).Sublist l) : a = b := by
  induction l with
  | nil => simp at h1
  | cons x xs ih =>
    have hx : x ∉ xs := (List.nodup_cons.mp hn).1
    have hxs : xs.Nodup := (List.nodup_cons.mp hn).2
    cases h1 with
    | cons _ h1' =>
      cases h2 with
      | cons _ h2' => exact ih hxs h1' h2'
      | cons₂ _ h2' =>
        have : b ∈ xs := h1'.subset (by simp)
        exact absurd this hx
    | cons₂ _ h1' =>
      cases h2 with
      | cons _ h2' =>
        have : a ∈ xs := h2'.subset (by simp)
        exact absurd this hx
      | cons₂ _ h2' => rfl

/-! ### Facts about the composite ranking key -/

theorem rankBefore_total (a b : SignalRecord) : rankBefore a b ∨ rankBefore b a :=
  (le_total (rankKey b) (rankKey a)).imp id id

theorem rankBefore_of_key_eq {a b : SignalRecord} (h : rankKey a = rankKey b) :
    rankBefore a b ∧ rankBefore b a :=
  ⟨le_of_eq h.symm, le_of_eq h⟩

theorem rankBefore_gc_strict {a b : SignalRecord}
    (ha1 : a.golden_cross_5_20 = true) (hb1 : b.golden_cross_5_20 = false) :
    rankBefore a b ∧ ¬ rankBefore b a := by
  constructor
  · show rankKey b ≤ rankKey a
    unfold rankKey
    rw [ha1, hb1]
    exact le_of_lt ((Prod.Lex.lt_iff _ _).mpr (Or.inl (by simp [Bool.lt_iff])))
  · show ¬ rankKey a ≤ rankKey b
    unfold rankKey
    rw [ha1, hb1]
    intro hle
    rcases (Prod.Lex.le_iff _ _).mp hle with hlt | ⟨heq, _⟩
    · simp [Bool.lt_iff] at hlt
    · simp at heq

theorem rankBefore_vs_strict {a b : SignalRecord}
    (hgc : a.golden_cross_5_20 = b.golden_cross_5_20)
    (ha : a.vol_spike_vs_20d = true) (hb : b.vol_spike_vs_20d = false) :
    rankBefore a b ∧ ¬ rankBefore b a := by
  constructor
  · show rankKey b ≤ rankKey a
    unfold rankKey
    rw [ha, hb, hgc]
    refine (Prod.Lex.le_iff _ _).mpr (Or.inr ⟨rfl, ?_⟩)
    exact le_of_lt ((Prod.Lex.lt_iff _ _).mpr (Or.inl (by simp [Bool.lt_iff])))
  · show ¬ rankKey a ≤ rankKey b
    unfold rankKey
    rw [ha, hb, hgc]
    intro hle
    rcases (Prod.Lex.le_iff _ _).mp hle with hlt | ⟨_, hle2⟩
    · exact lt_irrefl _ hlt
    · rcases (Prod.Lex.le_iff _ _).mp hle2 with hlt | ⟨heq, _⟩
      · simp [Bool.lt_iff] at hlt
      · simp at heq

theorem rankBefore_above_strict {a b : SignalRecord} {q : ℚ}
    (hgc : a.golden_cross_5_20 = b.golden_cross_5_20)
    (hvs : a.vol_spike_vs_20d = b.vol_spike_vs_20d)
    (ha : a.above_ma60_pct = some q) (hb : b.above_ma60_pct = none) :
    rankBefore a b ∧ ¬ rankBefore b a := by
  constructor
  · show rankKey b ≤ rankKey a
    unfold rankKey
    rw [ha, hb, hgc, hvs]
    refine (Prod.Lex.le_iff _ _).mpr (Or.inr ⟨rfl, ?_⟩)
    refine (Prod.Lex.le_iff _ _).mpr (Or.inr ⟨rfl, ?_⟩)
    exact le_of_lt ((Prod.Lex.lt_iff _ _).mpr (Or.inl (by simp)))
  · show ¬ rankKey a ≤ rankKey b
    unfold rankKey
    rw [ha, hb, hgc, hvs]
    intro hle
    rcases (Prod.Lex.le_iff _ _).mp hle with hlt | ⟨_, hle2⟩
    · exact lt_irrefl _ hlt
    · rcases (Prod.Lex.le_iff _ _).mp hle2 with hlt | ⟨_, hle3⟩
      · exact lt_irrefl _ hlt
      · rcases (Prod.Lex.le_iff _ _).mp hle3 with hlt | ⟨heq, _⟩
        · exact absurd hlt (by simp)
        · exact absurd heq (by simp)

theorem rankBefore_dchg_strict {a b : SignalRecord} {q : ℚ}
    (hgc : a.golden_cross_5_20 = b.golden_cross_5_20)
    (hvs : a.vol_spike_vs_20d = b.vol_spike_vs_20d)
    (hab : a.above_ma60_pct = b.above_ma60_pct)
    (ha : a.d_change_pct = some q) (hb : b.d_change_pct = none) :
    rankBefore a b ∧ ¬ rankBefore b a := by
  constructor
  · show rankKey b ≤ rankKey a
    unfold rankKey
    rw [ha, hb, hgc, hvs, hab]
    refine (Prod.Lex.le_iff _ _).mpr (Or.inr ⟨rfl, ?_⟩)
    refine (Prod.Lex.le_iff _ _).mpr (Or.inr ⟨rfl, ?_⟩)
    refine (Prod.Lex.le_iff _ _).mpr (Or.inr ⟨rfl, ?_⟩)
    simp
  · show ¬ rankKey a ≤ rankKey b
    unfold rankKey
    rw [ha, hb, hgc, hvs, hab]
    intro hle
    rcases (Prod.Lex.le_iff _ _).mp hle with hlt | ⟨_, hle2⟩
    · exact lt_irrefl _ hlt
    · rcases (Prod.Lex.le_iff _ _).mp hle2 with hlt | ⟨_, hle3⟩
      · exact lt_irrefl _ hlt
      · rcases (Prod.Lex.le_iff _ _).mp hle3 with hlt | ⟨_, hle4⟩
        · exact lt_irrefl _ hlt
        · exact absurd hle4 (by simp)

/-! ### Where output rows come from, and when the rolling means are defined -/

theorem mem_computeSignals {d : PriceData} {out : List SignalRecord} {r : SignalRecord}
    (h : computeSignals d = .ok out) (hr : r ∈ out) :
    ∃ t s, prepSeries d t = .ok s ∧ 50 ≤ s.1.length ∧ 1 ≤ s.2.length ∧
      computeRow t s.1 s.2 = .ok r ∧ r = recordSpec t s.1 s.2 ∧ r.ticker = t := by
  obtain ⟨rows, hb, _, hout⟩ := computeSignals_ok h
  have hr' : r ∈ rows := by
    rw [hout] at hr
    exact (List.perm_insertionSort rankBefore rows).mem_iff.mp hr
  obtain ⟨t, _, hrow⟩ := (buildRows_mem hb r).mp hr'
  obtain ⟨s, hp, hcase⟩ := rowFor_ok_inv hrow
  rcases hcase with ⟨_, habs⟩ | ⟨hlen, r', hr'', hcr⟩
  · exact absurd habs (by simp)
  · have hx : r = r' := by simpa using hr''
    subst hx
    obtain ⟨_, hv1, hrec⟩ := computeRow_ok hcr
    exact ⟨t, s, hp, hlen, hv1, hcr, hrec, by rw [hrec, recordSpec_ticker]⟩

theorem maAt_eq {w k : Nat} (xs : List ℚ) (hk : k < xs.length) :
    maAt w xs k =
      if w ≤ xs.length - k then
        some (((xs.take (xs.length - k)).drop (xs.length - k - w)).sum / (w : ℚ))
      else none := by
  unfold maAt rollingMean
  rw [List.getD_eq_getElem _ _ (by simp only [List.length_map, List.length_range]; omega)]
  simp only [List.getElem_map, List.getElem_range]
  have h1 : xs.length - 1 - k + 1 = xs.length - k := by omega
  rw [h1]

theorem maAt_some {w k : Nat} (xs : List ℚ) (hk : k < xs.length)
    (hw : w ≤ xs.length - k) :
    maAt w xs k = some (((xs.take (xs.length - k)).drop (xs.length - k - w)).sum / (w : ℚ)) := by
  rw [maAt_eq xs hk, if_pos hw]

theorem maAt_none {w k : Nat} (xs : List ℚ) (hk : k < xs.length)
    (hw : xs.length - k < w) :
    maAt w xs k = none := by
  rw [maAt_eq xs hk, if_neg (by omega)]

/-- C2: the output table is totally ordered by the descending 4-key
composite (golden_cross_5_20, vol_spike_vs_20d, above_ma60_pct,
day_change_pct): the rows are pairwise ordered by rankBefore, rankBefore is
total, a record with golden cross and no volume spike strictly precedes one
with a volume spike and no golden cross regardless of the remaining keys,
and within the above_ma60_pct and day_change_pct tiers a record whose value
is absent comes after every record whose value is present. -/
theorem C2_ranked_order (d : PriceData) (out : List SignalRecord)
    (h : computeSignals d = .ok out) :
    out.Pairwise rankBefore ∧
    (∀ a b : SignalRecord, rankBefore a b ∨ rankBefore b a) ∧
    (∀ i j : Fin out.length,
        (out.get i).golden_cross_5_20 = true → (out.get i).vol_spike_vs_20d = false →
        (out.get j).golden_cross_5_20 = false → (out.get j).vol_spike_vs_20d = true →
        (i : ℕ) < j) ∧
    (∀ (i j : Fin out.length) (q : ℚ),
        (out.get i).golden_cross_5_20 = (out.get j).golden_cross_5_20 →
        (out.get i).vol_spike_vs_20d = (out.get j).vol_spike_vs_20d →
        (out.get i).above_ma60_pct = some q → (out.get j).above_ma60_pct = none →
        (i : ℕ) < j) ∧
    (∀ (i j : Fin out.length) (q : ℚ),
        (out.get i).golden_cross_5_20 = (out.get j).golden_cross_5_20 →
        (out.get i).vol_spike_vs_20d = (out.get j).vol_spike_vs_20d →
        (out.get i).above_ma60_pct = (out.get j).above_ma60_pct →
        (out.get i).d_change_pct = some q → (out.get j).d_change_pct = none →
        (i : ℕ) < j) := by
  obtain ⟨rows, hb, _, hout⟩ := computeSignals_ok h
  have hsorted : out.Pairwise rankBefore := by
    rw [hout]
    exact List.sorted_insertionSort rankBefore rows
  have hget := List.pairwise_iff_get.mp hsorted
  refine ⟨hsorted, rankBefore_total, ?_, ?_, ?_⟩
  · intro i j h1 h2 h3 h4
    rcases Nat.lt_trichotomy (i : ℕ) (j : ℕ) with hij | hij | hij
    · exact hij
    · have : i = j := Fin.ext hij
      subst this
      rw [h1] at h3
      exact absurd h3 (by simp)
    · have hbef := hget j i (by omega)
      have hstr := rankBefore_gc_strict h1 h3
      exact absurd hbef hstr.2
  · intro i j q h1 h2 h3 h4
    rcases Nat.lt_trichotomy (i : ℕ) (j : ℕ) with hij | hij | hij
    · exact hij
    · have : i = j := Fin.ext hij
      subst this
      rw [h3] at h4
      exact absurd h4 (by simp)
    · have hbef := hget j i (by omega)
      have hstr := rankBefore_above_strict h1 h2 h3 h4
      exact absurd hbef hstr.2
  · intro i j q h1 h2 h3 h4 h5
    rcases Nat.lt_trichotomy (i : ℕ) (j : ℕ) with hij | hij | hij
    · exact hij
    · have : i = j := Fin.ext hij
      subst this
      rw [h4] at h5
      exact absurd h5 (by simp)
    · have hbef := hget j i (by omega)
      have hstr := rankBefore_dchg_strict h1 h2 h3 h4 h5
      exact absurd hbef hstr.2

/-- C3: the ranking is deterministic; two records that tie on all four sort
keys appear in ascending ticker order, which is exactly the order in which
the rows were produced, so identical input data yields identical row order.
(The embedding is a function of the frame, so run-to-run determinism is
definitional; the content is the stable tie-break.) -/
theorem C3_stable_tie_break (d : PriceData) (out : List SignalRecord)
    (h : computeSignals d = .ok out) :
    out.Pairwise fun a b => rankKey a = rankKey b → pyStrLt a.ticker b.ticker = true := by
  obtain ⟨rows, hb, _, hout⟩ := computeSignals_ok h
  have hrowsP := rows_pairwise_tickers hb
  have hrowsN := rows_nodup hb
  have houtN : out.Nodup := by
    rw [hout]
    exact (List.perm_insertionSort rankBefore rows).nodup_iff.mpr hrowsN
  rw [List.pairwise_iff_forall_sublist]
  intro a b hsub htie
  have hne : a ≠ b := by
    intro heq
    subst heq
    exact absurd rfl (List.pairwise_iff_forall_sublist.mp houtN hsub)
  have hamem : a ∈ rows := by
    have : a ∈ out := hsub.subset (by simp)
    rw [hout] at this
    exact (List.perm_insertionSort rankBefore rows).mem_iff.mp this
  have hbmem : b ∈ rows := by
    have : b ∈ out := hsub.subset (by simp)
    rw [hout] at this
    exact (List.perm_insertionSort rankBefore rows).mem_iff.mp this
  rcases pair_sublist_of_mem hamem hbmem hne with hpair | hpair
  · exact List.pairwise_iff_forall_sublist.mp hrowsP hpair
  · exfalso
    have hba : rankBefore b a := (rankBefore_of_key_eq htie).2
    have hsub2 : ([b, a]).Sublist out := by
      rw [hout]
      exact List.pair_sublist_insertionSort hba hpair
    exact hne (nodup_pair_sublist houtN hsub hsub2)

/-- C10: each ticker symbol appears in at most one output row: the set of
processed tickers is deduplicated before the loop, every row carries the
ticker it was produced for, and the sort only permutes the rows. -/
theorem C10_unique_tickers (d : PriceData) (out : List SignalRecord)
    (h : computeSignals d = .ok out) :
    out.Pairwise fun a b => a.ticker ≠ b.ticker := by
  obtain ⟨rows, hb, _, hout⟩ := computeSignals_ok h
  have hP : rows.Pairwise fun a b => a.ticker ≠ b.ticker :=
    (rows_pairwise_tickers hb).imp fun hlt => pyStrLt_ne hlt
  rw [hout]
  exact ((List.perm_insertionSort rankBefore rows).pairwise_iff fun hxy => hxy.symm).mpr hP

/-- C4: a ticker whose cleaned close series has fewer than 50 bars yields no
output row (hard filter), and one with exactly 50 cleaned bars is not
excluded by the filter: whenever the run succeeds it contributes a row. -/
theorem C4_min_bars_filter :
    (∀ (d : PriceData) (out : List SignalRecord) (t : String)
        (s : List (Nat × ℚ) × List (Nat × ℚ)),
        computeSignals d = .ok out → prepSeries d t = .ok s → s.1.length < 50 →
        ∀ r ∈ out, r.ticker ≠ t) ∧
    (∀ (d : PriceData) (out : List SignalRecord) (t : String)
        (s : List (Nat × ℚ) × List (Nat × ℚ)),
        computeSignals d = .ok out → t ∈ tickerList d → prepSeries d t = .ok s →
        s.1.length = 50 → ∃ r ∈ out, r.ticker = t) := by
  constructor
  · intro d out t s h hp hlen r hr hticker
    obtain ⟨t', s', hp', hlen', _, _, _, hticker'⟩ := mem_computeSignals h hr
    have : t' = t := by rw [← hticker, hticker']
    subst this
    rw [hp'] at hp
    have : s' = s := by simpa using hp
    subst this
    omega
  · intro d out t s h ht hp hlen
    obtain ⟨rows, hb, _, hout⟩ := computeSignals_ok h
    have hts : t ∈ sortedTickers d :=
      (List.perm_insertionSort strLe (tickerList d).dedup).mem_iff.mpr
        (List.mem_dedup.mpr ht)
    obtain ⟨o, ho, hmem⟩ := buildRows_ok_of_mem hb hts
    obtain ⟨s', hp', hcase⟩ := rowFor_ok_inv ho
    rw [hp'] at hp
    have : s' = s := by simpa using hp
    subst this
    rcases hcase with ⟨habs, _⟩ | ⟨_, r, hro, _⟩
    · omega
    · refine ⟨r, ?_, rowFor_ticker (by rw [ho, hro])⟩
      rw [hout]
      exact (List.perm_insertionSort rankBefore rows).mem_iff.mpr (hmem r hro)

/-! ### Field lemmas for recordSpec -/

theorem recordSpec_golden (t : String) (close vol : List (Nat × ℚ)) :
    (recordSpec t close vol).golden_cross_5_20 =
      (nanLt (maAt 5 (close.map Prod.snd) 1) (maAt 20 (close.map Prod.snd) 1) &&
       nanLt (maAt 20 (close.map Prod.snd) 0) (maAt 5 (close.map Prod.snd) 0)) := rfl

theorem recordSpec_vol_spike (t : String) (close vol : List (Nat × ℚ)) :
    (recordSpec t close vol).vol_spike_vs_20d =
      (match maAt 20 (vol.map Prod.snd) 0 with
       | none => false
       | some av => decide (3 / 2 * av < endD (vol.map Prod.snd) 0)) := rfl

theorem recordSpec_above (t : String) (close vol : List (Nat × ℚ)) :
    (recordSpec t close vol).above_ma60_pct =
      ((maAt 60 (close.map Prod.snd) 0).map fun m =>
        (endD (close.map Prod.snd) 0 / m - 1) * 100).map (pyRound 2) := rfl

/-- C1 (amended): for every emitted record, golden_cross_5_20 is true iff
the 5-bar mean is strictly below the 20-bar mean at the second-to-last
position and strictly above it at the last position — the script compares
the last position with a strict greater-than, not the at-or-above of the
original claim. All four means are defined because the series has at least
50 bars. -/
theorem C1_golden_cross_strict (d : PriceData) (out : List SignalRecord) (r : SignalRecord)
    (h : computeSignals d = .ok out) (hr : r ∈ out) :
    ∃ t s, prepSeries d t = .ok s ∧ 50 ≤ s.1.length ∧
      ∃ a b c e,
        maAt 5 (s.1.map Prod.snd) 1 = some a ∧ maAt 20 (s.1.map Prod.snd) 1 = some b ∧
        maAt 5 (s.1.map Prod.snd) 0 = some c ∧ maAt 20 (s.1.map Prod.snd) 0 = some e ∧
        (r.golden_cross_5_20 = true ↔ (a < b ∧ e < c)) := by
  obtain ⟨t, s, hp, hlen, _, _, hrec, _⟩ := mem_computeSignals h hr
  have hxl : (s.1.map Prod.snd).length = s.1.length := by simp
  refine ⟨t, s, hp, hlen, ?_⟩
  refine ⟨_, _, _, _, maAt_some _ (by omega) (by omega), maAt_some _ (by omega) (by omega),
    maAt_some _ (by omega) (by omega), maAt_some _ (by omega) (by omega), ?_⟩
  rw [hrec, recordSpec_golden,
    maAt_some (s.1.map Prod.snd) (by omega) (by omega : 5 ≤ (s.1.map Prod.snd).length - 1),
    maAt_some (s.1.map Prod.snd) (by omega) (by omega : 20 ≤ (s.1.map Prod.snd).length - 1),
    maAt_some (s.1.map Prod.snd) (by omega) (by omega : 5 ≤ (s.1.map Prod.snd).length - 0),
    maAt_some (s.1.map Prod.snd) (by omega) (by omega : 20 ≤ (s.1.map Prod.snd).length - 0)]
  simp only [nanLt, Bool.and_eq_true, decide_eq_true_iff]

/-- C7: for every emitted record, vol_spike_vs_20d is true iff the 20-bar
average volume at the last position of the cleaned volume series is defined
and the latest volume strictly exceeds 1.5 times it; it is false both when
the average is undefined and at the exact 1.5-times boundary. -/
theorem C7_vol_spike_iff (d : PriceData) (out : List SignalRecord) (r : SignalRecord)
    (h : computeSignals d = .ok out) (hr : r ∈ out) :
    ∃ t s, prepSeries d t = .ok s ∧ computeRow t s.1 s.2 = .ok r ∧
      (r.vol_spike_vs_20d = true ↔
        ∃ av, maAt 20 (s.2.map Prod.snd) 0 = some av ∧
          3 / 2 * av < endD (s.2.map Prod.snd) 0) ∧
      (maAt 20 (s.2.map Prod.snd) 0 = none → r.vol_spike_vs_20d = false) ∧
      (∀ av, maAt 20 (s.2.map Prod.snd) 0 = some av →
        endD (s.2.map Prod.snd) 0 = 3 / 2 * av → r.vol_spike_vs_20d = false) := by
  obtain ⟨t, s, hp, _, _, hcr, hrec, _⟩ := mem_computeSignals h hr
  refine ⟨t, s, hp, hcr, ?_, ?_, ?_⟩
  · rcases hm : maAt 20 (s.2.map Prod.snd) 0 with _ | av
    · rw [hrec, recordSpec_vol_spike, hm]
      simp [hm]
    · rw [hrec, recordSpec_vol_spike, hm]
      constructor
      · intro hd
        exact ⟨av, rfl, by simpa using hd⟩
      · rintro ⟨av', hav', hlt⟩
        have hxx : av = av' := by simpa using hav'
        subst hxx
        simpa using hlt
  · intro hm
    rw [hrec, recordSpec_vol_spike, hm]
  · intro av hm heq
    rw [hrec, recordSpec_vol_spike, hm]
    simp [heq]

/-- C9: for every emitted record, above_ma60_pct is the percentage deviation
of the latest close from the 60-bar mean, rounded to two decimals, when that
mean is defined at the last position, and absent when it is undefined; in
particular it is absent whenever the cleaned close series has at most 59
bars (the record itself requires at least 50). -/
theorem C9_above_ma60 (d : PriceData) (out : List SignalRecord) (r : SignalRecord)
    (h : computeSignals d = .ok out) (hr : r ∈ out) :
    ∃ t s, prepSeries d t = .ok s ∧ 50 ≤ s.1.length ∧ computeRow t s.1 s.2 = .ok r ∧
      r.above_ma60_pct = (maAt 60 (s.1.map Prod.snd) 0).map
        (fun m => pyRound 2 ((endD (s.1.map Prod.snd) 0 / m - 1) * 100)) ∧
      (s.1.length ≤ 59 → r.above_ma60_pct = none) := by
  obtain ⟨t, s, hp, hlen, _, hcr, hrec, _⟩ := mem_computeSignals h hr
  have hxl : (s.1.map Prod.snd).length = s.1.length := by simp
  have hfield : r.above_ma60_pct = (maAt 60 (s.1.map Prod.snd) 0).map
      (fun m => pyRound 2 ((endD (s.1.map Prod.snd) 0 / m - 1) * 100)) := by
    rw [hrec, recordSpec_above, Option.map_map]
    rfl
  refine ⟨t, s, hp, hlen, hcr, hfield, ?_⟩
  intro h59
  rw [hfield, maAt_none (s.1.map Prod.snd) (by omega) (by omega)]
  rfl

/-! ### Helpers for the shape claims -/

theorem prepSeries_multi_eval (idx : List Nat) (cols : List MultiCol) (t : String)
    {cc vc : List (Option ℚ)}
    (hcc : colValues cols t "Close" = .ok cc) (hvc : colValues cols t "Volume" = .ok vc) :
    prepSeries (.multi idx cols) t = .ok (dropna idx cc, dropna idx vc) := by
  simp only [prepSeries, hcc, hvc, exc_ok_bind, exc_pure]

theorem prepSeries_single_eval (idx : List Nat) (c v : List (Option ℚ)) (t : String) :
    prepSeries (.single idx c v) t = .ok (dropna idx c, dropna idx v) := rfl

theorem colValues_pair_close (t : String) (cc vv : List (Option ℚ)) :
    colValues [⟨t, "Close", cc⟩, ⟨t, "Volume", vv⟩] t "Close" = .ok cc := by
  simp [colValues, List.find?]

theorem colValues_pair_volume (t : String) (cc vv : List (Option ℚ)) :
    colValues [⟨t, "Close", cc⟩, ⟨t, "Volume", vv⟩] t "Volume" = .ok vv := by
  have h1 : ((("Close" : String) == ("Volume" : String))) = false := rfl
  simp [colValues, List.find?, h1]

theorem buildRows_singleton (d : PriceData) (t : String) :
    buildRows d [t] = Except.map Option.toList (rowFor d t) := by
  cases h : rowFor d t with
  | error e => simp [buildRows, h, exc_error_bind, Except.map]
  | ok o => simp [buildRows, h, exc_ok_bind, exc_pure, Except.map]

theorem computeSignals_err_buildRows {d : PriceData} {e : String}
    (hb : buildRows d (sortedTickers d) = .error e) : computeSignals d = .error e := by
  simp only [computeSignals, hb, exc_error_bind]

theorem computeSignals_err_empty {d : PriceData}
    (hb : buildRows d (sortedTickers d) = .ok []) :
    computeSignals d = .error "KeyError: golden_cross_5_20" := by
  simp only [computeSignals, hb, exc_ok_bind, List.isEmpty_nil, if_true]

theorem sansTicker_recordSpec (t t' : String) (close vol : List (Nat × ℚ)) :
    sansTicker (recordSpec t close vol) = sansTicker (recordSpec t' close vol) := rfl

theorem sortedTickers_pair (idx : List Nat) (t : String) (cc vv : List (Option ℚ)) :
    sortedTickers (.multi idx [⟨t, "Close", cc⟩, ⟨t, "Volume", vv⟩]) = [t] := by
  have h1 : tickerList (.multi idx [⟨t, "Close", cc⟩, ⟨t, "Volume", vv⟩]) = [t] := rfl
  rw [sortedTickers, h1]
  rfl

theorem sortedTickers_single (idx : List Nat) (c v : List (Option ℚ)) :
    sortedTickers (.single idx c v) = ["SINGLE"] := rfl

/-- C5 (code bug): when no ticker survives the 50-bar filter the row list is
empty, the DataFrame built from it has no columns, and the sort_values call
raises KeyError for its first sort key instead of returning an empty table:
here on a frame whose only ticker has three bars. -/
theorem C5_empty_table_keyerror :
    computeSignals exFrame5 = .error "KeyError: golden_cross_5_20" := by decide

/-- C6 (amended): each column is cleaned independently: the cleaned close
series keeps exactly the bars whose close cell is present and the cleaned
volume series keeps exactly the bars whose volume cell is present — the two
need not cover the same dates — and every emitted record is computed by
computeRow from precisely this pair of independently cleaned series. -/
theorem C6_independent_clean :
    (∀ (idx : List Nat) (vals : List (Option ℚ)) (a : Nat) (q : ℚ),
        (a, q) ∈ dropna idx vals ↔ (a, some q) ∈ idx.zip vals) ∧
    (∀ (idx : List Nat) (cols : List MultiCol) (t : String) (cc vc : List (Option ℚ)),
        colValues cols t "Close" = .ok cc → colValues cols t "Volume" = .ok vc →
        prepSeries (.multi idx cols) t = .ok (dropna idx cc, dropna idx vc)) ∧
    (∀ (idx : List Nat) (c v : List (Option ℚ)) (t : String),
        prepSeries (.single idx c v) t = .ok (dropna idx c, dropna idx v)) ∧
    (∀ (d : PriceData) (t : String) (s : List (Nat × ℚ) × List (Nat × ℚ))
        (out : List SignalRecord) (r : SignalRecord),
        computeSignals d = .ok out → r ∈ out → r.ticker = t →
        prepSeries d t = .ok s → computeRow t s.1 s.2 = .ok r) := by
  refine ⟨?_, ?_, ?_, ?_⟩
  · intro idx vals a q
    simp only [dropna, List.mem_filterMap]
    constructor
    · rintro ⟨⟨d0, c⟩, hmem, hfq⟩
      cases c with
      | none => simp at hfq
      | some v =>
        have h1 : d0 = a ∧ v = q := by simpa using hfq
        rcases h1 with ⟨rfl, rfl⟩
        exact hmem
    · intro hmem
      exact ⟨(a, some q), hmem, rfl⟩
  · intro idx cols t cc vc hcc hvc
    exact prepSeries_multi_eval idx cols t hcc hvc
  · intro idx c v t
    exact prepSeries_single_eval idx c v t
  · intro d t s out r h hr hticker hp
    obtain ⟨t', s', hp', _, _, hcr, _, hticker'⟩ := mem_computeSignals h hr
    have : t' = t := by rw [← hticker, hticker']
    subst this
    rw [hp'] at hp
    have : s' = s := by simpa using hp
    subst this
    exact hcr

/-- C6 counterexample: with every close present but the last volume cell
missing, the cleaned close series covers dates 0 … 49 while the cleaned
volume series covers only 0 … 48, contradicting the claim that the two
cleaned series cover the same set of dates. -/
theorem C6_joint_clean_counterexample :
    (prepSeries exFrame6 "A").map (fun s => (s.1.map Prod.fst, s.2.map Prod.fst)) =
      .ok (List.range 50, List.range 49) := by decide

/-- C8 counterexample: the same underlying series processed through the
multi-ticker shape yields a record whose ticker is the requested symbol,
while the single-ticker shape yields the placeholder SINGLE, so the seven
fields are not all equal as the claim states. -/
theorem C8_shape_ticker_counterexample :
    (computeSignals exFrame8m).map (List.map SignalRecord.ticker) = .ok ["AAPL"] ∧
    (computeSignals exFrame8s).map (List.map SignalRecord.ticker) = .ok ["SINGLE"] := by
  constructor <;> decide

/-- C8 (amended): for the same underlying close and volume columns the two
input shapes produce rows with identical signal content — all fields except
the ticker agree — while the multi shape labels the row with the requested
symbol and the single shape with the placeholder SINGLE. -/
theorem C8_shape_equiv_except_ticker (idx : List Nat) (cc vv : List (Option ℚ)) (t : String)
    (out1 out2 : List SignalRecord)
    (h1 : computeSignals (.multi idx [⟨t, "Close", cc⟩, ⟨t, "Volume", vv⟩]) = .ok out1)
    (h2 : computeSignals (.single idx cc vv) = .ok out2) :
    out1.map sansTicker = out2.map sansTicker ∧
    out1.map SignalRecord.ticker = [t] ∧ out2.map SignalRecord.ticker = ["SINGLE"] := by
  have hprep1 : prepSeries (.multi idx [⟨t, "Close", cc⟩, ⟨t, "Volume", vv⟩]) t =
      .ok (dropna idx cc, dropna idx vv) :=
    prepSeries_multi_eval idx _ t (colValues_pair_close t cc vv) (colValues_pair_volume t cc vv)
  have hprep2 : prepSeries (.single idx cc vv) "SINGLE" =
      .ok (dropna idx cc, dropna idx vv) := prepSeries_single_eval idx cc vv "SINGLE"
  by_cases hlen : (dropna idx cc).length < 50
  · exfalso
    have hb1 : buildRows (.multi idx [⟨t, "Close", cc⟩, ⟨t, "Volume", vv⟩])
        (sortedTickers (.multi idx [⟨t, "Close", cc⟩, ⟨t, "Volume", vv⟩])) = .ok [] := by
      rw [sortedTickers_pair, buildRows_singleton, rowFor_none hprep1 hlen]
      rfl
    rw [computeSignals_err_empty hb1] at h1
    exact absurd h1 (by simp)
  · by_cases hv : 1 ≤ (dropna idx vv).length
    · have hb1 : buildRows (.multi idx [⟨t, "Close", cc⟩, ⟨t, "Volume", vv⟩])
          (sortedTickers (.multi idx [⟨t, "Close", cc⟩, ⟨t, "Volume", vv⟩])) =
          .ok [recordSpec t (dropna idx cc) (dropna idx vv)] := by
        rw [sortedTickers_pair, buildRows_singleton,
          rowFor_some hprep1 (by omega : 50 ≤ (dropna idx cc).length) hv]
        rfl
      have hb2 : buildRows (.single idx cc vv) (sortedTickers (.single idx cc vv)) =
          .ok [recordSpec "SINGLE" (dropna idx cc) (dropna idx vv)] := by
        rw [sortedTickers_single, buildRows_singleton,
          rowFor_some hprep2 (by omega : 50 ≤ (dropna idx cc).length) hv]
        rfl
      have ho1 : out1 = [recordSpec t (dropna idx cc) (dropna idx vv)] := by
        obtain ⟨rows, hb, _, hout⟩ := computeSignals_ok h1
        rw [hb1] at hb
        have hrr : [recordSpec t (dropna idx cc) (dropna idx vv)] = rows := by simpa using hb
        subst hrr
        simpa [List.insertionSort, List.orderedInsert] using hout
      have ho2 : out2 = [recordSpec "SINGLE" (dropna idx cc) (dropna idx vv)] := by
        obtain ⟨rows, hb, _, hout⟩ := computeSignals_ok h2
        rw [hb2] at hb
        have hrr : [recordSpec "SINGLE" (dropna idx cc) (dropna idx vv)] = rows := by simpa using hb
        subst hrr
        simpa [List.insertionSort, List.orderedInsert] using hout
      refine ⟨?_, ?_, ?_⟩
      · rw [ho1, ho2]
        simp only [List.map_cons, List.map_nil]
        rw [sansTicker_recordSpec t "SINGLE"]
      · rw [ho1]
        simp [recordSpec_ticker]
      · rw [ho2]
        simp [recordSpec_ticker]
    · exfalso
      have hrow : rowFor (.multi idx [⟨t, "Close", cc⟩, ⟨t, "Volume", vv⟩]) t =
          .error "IndexError" := by
        simp only [rowFor, hprep1, exc_ok_bind, if_neg hlen,
          computeRow_err_vol t (dropna idx cc) (dropna idx vv)
            (by omega : 2 ≤ (dropna idx cc).length) (by omega : (dropna idx vv).length = 0),
          exc_error_bind]
      have hb1 : buildRows (.multi idx [⟨t, "Close", cc⟩, ⟨t, "Volume", vv⟩])
          (sortedTickers (.multi idx [⟨t, "Close", cc⟩, ⟨t, "Volume", vv⟩])) =
          .error "IndexError" := by
        rw [sortedTickers_pair, buildRows_singleton, hrow]
        rfl
      rw [computeSignals_err_buildRows hb1] at h1
      exact absurd h1 (by simp)

/-- C1 counterexample: on exFrame1 the 5-bar mean is strictly below the
20-bar mean at the second-to-last position and at-or-above (here exactly
equal) at the last position, which the claim says makes golden_cross_5_20
true, yet the emitted record carries false because the script compares the
last position strictly. -/
theorem C1_golden_cross_counterexample :
    (computeSignals exFrame1).map (List.map SignalRecord.golden_cross_5_20) = .ok [false] ∧
    nanLt (maAt 5 exCloses1 1) (maAt 20 exCloses1 1) = true ∧
    nanLe (maAt 20 exCloses1 0) (maAt 5 exCloses1 0) = true := by
  refine ⟨by decide, by decide, by decide⟩

/-! ### Witnesses -/

theorem C1_golden_cross_strict_witness :
    ∃ t s, prepSeries exFrame1 t = .ok s ∧ 50 ≤ s.1.length ∧
      ∃ a b c e,
        maAt 5 (s.1.map Prod.snd) 1 = some a ∧ maAt 20 (s.1.map Prod.snd) 1 = some b ∧
        maAt 5 (s.1.map Prod.snd) 0 = some c ∧ maAt 20 (s.1.map Prod.snd) 0 = some e ∧
        (exRec1.golden_cross_5_20 = true ↔ (a < b ∧ e < c)) :=
  C1_golden_cross_strict exFrame1 [exRec1] exRec1 (by decide) (by decide)

theorem C2_ranked_order_witness :
    ([exRec1] : List SignalRecord).Pairwise rankBefore ∧
    (∀ a b : SignalRecord, rankBefore a b ∨ rankBefore b a) ∧
    (∀ i j : Fin ([exRec1] : List SignalRecord).length,
        (([exRec1] : List SignalRecord).get i).golden_cross_5_20 = true →
        (([exRec1] : List SignalRecord).get i).vol_spike_vs_20d = false →
        (([exRec1] : List SignalRecord).get j).golden_cross_5_20 = false →
        (([exRec1] : List SignalRecord).get j).vol_spike_vs_20d = true →
        (i : ℕ) < j) ∧
    (∀ (i j : Fin ([exRec1] : List SignalRecord).length) (q : ℚ),
        (([exRec1] : List SignalRecord).get i).golden_cross_5_20 =
          (([exRec1] : List SignalRecord).get j).golden_cross_5_20 →
        (([exRec1] : List SignalRecord).get i).vol_spike_vs_20d =
          (([exRec1] : List SignalRecord).get j).vol_spike_vs_20d →
        (([exRec1] : List SignalRecord).get i).above_ma60_pct = some q →
        (([exRec1] : List SignalRecord).get j).above_ma60_pct = none →
        (i : ℕ) < j) ∧
    (∀ (i j : Fin ([exRec1] : List SignalRecord).length) (q : ℚ),
        (([exRec1] : List SignalRecord).get i).golden_cross_5_20 =
          (([exRec1] : List SignalRecord).get j).golden_cross_5_20 →
        (([exRec1] : List SignalRecord).get i).vol_spike_vs_20d =
          (([exRec1] : List SignalRecord).get j).vol_spike_vs_20d →
        (([exRec1] : List SignalRecord).get i).above_ma60_pct =
          (([exRec1] : List SignalRecord).get j).above_ma60_pct →
        (([exRec1] : List SignalRecord).get i).d_change_pct = some q →
        (([exRec1] : List SignalRecord).get j).d_change_pct = none →
        (i : ℕ) < j) :=
  C2_ranked_order exFrame1 [exRec1] (by decide)

theorem C3_stable_tie_break_witness :
    ([exRec1] : List SignalRecord).Pairwise
      (fun a b => rankKey a = rankKey b → pyStrLt a.ticker b.ticker = true) :=
  C3_stable_tie_break exFrame1 [exRec1] (by decide)

theorem C4_min_bars_filter_witness :
    (∀ r ∈ ([exRec1] : List SignalRecord), r.ticker ≠ "B") ∧
    (∃ r ∈ ([exRec1] : List SignalRecord), r.ticker = "A") :=
  ⟨C4_min_bars_filter.1 exFrame4 [exRec1] "B"
      (dropna (List.range 50) exCloseShort, dropna (List.range 50) exVolA)
      (by decide) (by decide) (by decide),
   C4_min_bars_filter.2 exFrame4 [exRec1] "A"
      (dropna (List.range 50) exCloseA, dropna (List.range 50) exVolA)
      (by decide) (by decide) (by decide) (by decide)⟩

theorem C6_independent_clean_witness :
    (((0 : Nat), (10 : ℚ)) ∈ dropna [0] [some 10] ↔
      ((0 : Nat), some (10 : ℚ)) ∈ [(0 : Nat)].zip [some (10 : ℚ)]) ∧
    prepSeries (.multi (List.range 50) [⟨"A", "Close", exCloseFlat⟩, ⟨"A", "Volume", exVolGap⟩]) "A" =
      .ok (dropna (List.range 50) exCloseFlat, dropna (List.range 50) exVolGap) ∧
    prepSeries (.single [0] [some 1] [some 2]) "SINGLE" =
      .ok (dropna [0] [some 1], dropna [0] [some 2]) ∧
    computeRow "A" (dropna (List.range 50) exCloseFlat) (dropna (List.range 50) exVolGap) =
      .ok exRec6 :=
  ⟨C6_independent_clean.1 [0] [some 10] 0 10,
   C6_independent_clean.2.1 (List.range 50)
      [⟨"A", "Close", exCloseFlat⟩, ⟨"A", "Volume", exVolGap⟩] "A" exCloseFlat exVolGap
      (by decide) (by decide),
   C6_independent_clean.2.2.1 [0] [some 1] [some 2] "SINGLE",
   C6_independent_clean.2.2.2 exFrame6 "A"
      (dropna (List.range 50) exCloseFlat, dropna (List.range 50) exVolGap) [exRec6] exRec6
      (by decide) (by decide) (by decide) (by decide)⟩

theorem C7_vol_spike_iff_witness :
    ∃ t s, prepSeries exFrame1 t = .ok s ∧ computeRow t s.1 s.2 = .ok exRec1 ∧
      (exRec1.vol_spike_vs_20d = true ↔
        ∃ av, maAt 20 (s.2.map Prod.snd) 0 = some av ∧
          3 / 2 * av < endD (s.2.map Prod.snd) 0) ∧
      (maAt 20 (s.2.map Prod.snd) 0 = none → exRec1.vol_spike_vs_20d = false) ∧
      (∀ av, maAt 20 (s.2.map Prod.snd) 0 = some av →
        endD (s.2.map Prod.snd) 0 = 3 / 2 * av → exRec1.vol_spike_vs_20d = false) :=
  C7_vol_spike_iff exFrame1 [exRec1] exRec1 (by decide) (by decide)

theorem C8_shape_equiv_except_ticker_witness :
    ([exRec8m] : List SignalRecord).map sansTicker =
      ([exRec8s] : List SignalRecord).map sansTicker ∧
    ([exRec8m] : List SignalRecord).map SignalRecord.ticker = ["AAPL"] ∧
    ([exRec8s] : List SignalRecord).map SignalRecord.ticker = ["SINGLE"] :=
  C8_shape_equiv_except_ticker (List.range 50) exCloseFlat exVolA "AAPL" [exRec8m] [exRec8s]
    (by decide) (by decide)

theorem C9_above_ma60_witness :
    ∃ t s, prepSeries exFrame1 t = .ok s ∧ 50 ≤ s.1.length ∧
      computeRow t s.1 s.2 = .ok exRec1 ∧
      exRec1.above_ma60_pct = (maAt 60 (s.1.map Prod.snd) 0).map
        (fun m => pyRound 2 ((endD (s.1.map Prod.snd) 0 / m - 1) * 100)) ∧
      (s.1.length ≤ 59 → exRec1.above_ma60_pct = none) :=
  C9_above_ma60 exFrame1 [exRec1] exRec1 (by decide) (by decide)

theorem C10_unique_tickers_witness :
    ([exRec1] : List SignalRecord).Pairwise fun a b => a.ticker ≠ b.ticker :=
  C10_unique_tickers exFrame1 [exRec1] (by decide)
